import Mathlib

/-!
Verification of the core of `send_email.py`: the sheet classifier (header
scan and record preparation) and the send-and-record loop, modelled as pure
functions over the grid of cell strings, with the loop's externally visible
actions (SMTP connect, message send, sheet cell write, inter-record delay)
reified as an event trace. Transport success or failure for each attempted
record is supplied by a boolean oracle indexed by the record's position.
-/

/-- Lowercase a string character by character (model of Python `str.lower`). -/
def lowerStr (s : String) : String := ⟨s.data.map Char.toLower⟩

/-- Strip leading and trailing whitespace (model of Python `str.strip`). -/
def stripStr (s : String) : String :=
  ⟨((s.data.dropWhile Char.isWhitespace).reverse.dropWhile Char.isWhitespace).reverse⟩

/-- Normalization applied to each header cell: `str(cell).strip().lower()`. -/
def normCell (s : String) : String := lowerStr (stripStr s)

/-- Python `list.index`: position of the first occurrence of `x`. -/
def pyIndex (x : String) : List String → Nat
  | [] => 0
  | y :: ys => if y = x then 0 else pyIndex x ys + 1

/-- One step list of `row_lower`: every cell of the row, normalized. -/
def rowLower (row : List String) : List String := row.map normCell

/-- The header-row test of the scan: `"name" in row_lower and "email" in row_lower`. -/
def isHeaderRow (row : List String) : Bool :=
  decide ("name" ∈ rowLower row) && decide ("email" ∈ rowLower row)

/-- Column index map resolved from the header row. `businessIdx = none` models
the `-1` sentinel of `business_idx`; `statusIdx` holds the row length when the
`status` label is absent, exactly as in the source. -/
structure Header where
  nameIdx : Nat
  emailIdx : Nat
  statusIdx : Nat
  businessIdx : Option Nat
  headerRowNum : Nat
deriving DecidableEq

/-- Index resolution performed when row `i` (0-based) matches the header test. -/
def headerOfRow (i : Nat) (row : List String) : Header :=
  { nameIdx := pyIndex "name" (rowLower row)
    emailIdx := pyIndex "email" (rowLower row)
    statusIdx :=
      if "status" ∈ rowLower row then pyIndex "status" (rowLower row) else row.length
    businessIdx :=
      if "business name" ∈ rowLower row then some (pyIndex "business name" (rowLower row))
      else none
    headerRowNum := i + 1 }

/-- The header scan loop, carrying the current 0-based row index. -/
def scanHeaderAux : Nat → List (List String) → Option Header
  | _, [] => none
  | i, row :: rest =>
    if isHeaderRow row then some (headerOfRow i row) else scanHeaderAux (i + 1) rest

/-- Scan the grid top to bottom for the first row containing both `name` and
`email` after normalization; `none` when no such row exists (the
`name_idx == -1 or email_idx == -1` failure in the source). -/
def scanHeader (allData : List (List String)) : Option Header := scanHeaderAux 0 allData

/-- Contact record: one qualifying data row, annotated with its 1-based
original row number for write-back. -/
structure Record where
  name : String
  email : String
  business : String
  status : String
  rowNumber : Nat
deriving DecidableEq

/-- Inclusion test of the record-preparation loop:
`len(row) > max(name_idx, email_idx) and row[email_idx].strip()`. -/
def includeRow (h : Header) (row : List String) : Bool :=
  decide (max h.nameIdx h.emailIdx < row.length) &&
    !(stripStr (row.getD h.emailIdx "") == "")

/-- Projection of one data row (with its 1-based row number) into a record,
`none` when the row is silently dropped. -/
def rowRecord (h : Header) (rowNum : Nat) (row : List String) : Option Record :=
  if includeRow h row then
    some { name := row.getD h.nameIdx ""
           email := row.getD h.emailIdx ""
           business :=
             match h.businessIdx with
             | some b => if b < row.length then row.getD b "" else ""
             | none => ""
           status := if h.statusIdx < row.length then row.getD h.statusIdx "" else ""
           rowNumber := rowNum }
  else none

/-- Record preparation: iterate over `all_data[header_row_num:]` enumerated
from `header_row_num + 1`, keeping qualifying rows in order. -/
def mkRecords (h : Header) (allData : List (List String)) : List Record :=
  (List.enumFrom (h.headerRowNum + 1) (allData.drop h.headerRowNum)).filterMap
    fun p => rowRecord h p.1 p.2

/-- Bounded one-pass text replacement over character lists; `fuel` only bounds
the recursion and is never exhausted when it starts at the length of the
subject and the pattern is nonempty. -/
def replaceAux (pat rep : List Char) : Nat → List Char → List Char
  | _, [] => []
  | 0, s => s
  | fuel + 1, c :: cs =>
    if pat.isPrefixOf (c :: cs) then
      rep ++ replaceAux pat rep fuel ((c :: cs).drop pat.length)
    else c :: replaceAux pat rep fuel cs

/-- Model of Python `str.replace` (left-to-right, non-overlapping) for the
nonempty patterns used by the program. -/
def pyReplace (s pat rep : String) : String :=
  if pat.data = [] then s else ⟨replaceAux pat.data rep.data s.data.length s.data⟩

/-- Body rendering: `email_body.replace("{name}", name).replace("{business}", business)`. -/
def render (template name business : String) : String :=
  pyReplace (pyReplace template "{name}" name) "{business}" business

/-- Run configuration: login identity, subject, and body template. -/
structure Config where
  loginEmail : String
  subject : String
  body : String
deriving DecidableEq

/-- Externally visible actions of the run, in order of occurrence. -/
inductive Event where
  | smtpConnect : Event
  | send (sender recipient subject body : String) : Event
  | writeCell (rowNum col : Nat) (value : String) : Event
  | sleep : Event
deriving DecidableEq

/-- The skip test's normalization: `str(record["Status"]).strip().lower()`. -/
def normStatus (r : Record) : String := lowerStr (stripStr r.status)

/-- Events produced for one record: nothing when its normalized status is
`"sent"`; otherwise one send attempt, one status-cell write (`update_cell` is
1-based, hence column `statusIdx + 1`) whose value is decided by the transport
outcome `ok`, and one anti-spam delay. -/
def processRecord (cfg : Config) (statusIdx : Nat) (ok : Bool) (r : Record) : List Event :=
  if normStatus r = "sent" then []
  else
    [Event.send cfg.loginEmail (stripStr r.email) cfg.subject
       (render cfg.body (stripStr r.name) (stripStr r.business)),
     Event.writeCell r.rowNumber (statusIdx + 1) (if ok then "Sent" else "Failed"),
     Event.sleep]

/-- The send loop over the record sequence; `oracle i` is the transport
outcome of the record at position `i`. -/
def sendLoop (cfg : Config) (statusIdx : Nat) (oracle : Nat → Bool) :
    Nat → List Record → List Event
  | _, [] => []
  | idx, r :: rest =>
    processRecord cfg statusIdx (oracle idx) r ++ sendLoop cfg statusIdx oracle (idx + 1) rest

/-- Terminal condition of a run of the core. -/
inductive Outcome where
  | missingColumns : Outcome
  | noContacts : Outcome
  | completed : Outcome
deriving DecidableEq

/-- The whole core, from the fetched grid to the trace: header scan, record
preparation, the two early halts, then SMTP connect and the send loop. -/
def run (cfg : Config) (oracle : Nat → Bool) (allData : List (List String)) :
    Outcome × List Event :=
  match scanHeader allData with
  | none => (Outcome.missingColumns, [])
  | some h =>
    let records := mkRecords h allData
    if records.isEmpty then (Outcome.noContacts, [])
    else (Outcome.completed, Event.smtpConnect :: sendLoop cfg h.statusIdx oracle 0 records)

/-- Event classifiers used to state trace properties. -/
def isSend : Event → Bool
  | Event.send _ _ _ _ => true
  | _ => false

def isWrite : Event → Bool
  | Event.writeCell _ _ _ => true
  | _ => false

def isSleep : Event → Bool
  | Event.sleep => true
  | _ => false

/-- Row numbers targeted by the write events of a trace, in order. -/
def writeRowsOf (es : List Event) : List Nat :=
  es.filterMap fun e =>
    match e with
    | Event.writeCell n _ _ => some n
    | _ => none

/-- A record is attempted (not skipped) iff its normalized status differs from
`"sent"`. -/
def attempted (r : Record) : Bool := !(normStatus r == "sent")

theorem stringMkData (s : String) : (⟨s.data⟩ : String) = s := by
  cases s
  rfl

theorem isHeaderRow_iff (row : List String) :
    isHeaderRow row = true ↔ ("name" ∈ rowLower row ∧ "email" ∈ rowLower row) := by
  simp [isHeaderRow]

theorem pyIndex_get (x : String) (l : List String) (hmem : x ∈ l) :
    l.get? (pyIndex x l) = some x := by
  induction l with
  | nil => cases hmem
  | cons y ys ih =>
    by_cases hy : y = x
    · simp [pyIndex, hy]
    · have hx : x ∈ ys := by
        rcases List.mem_cons.mp hmem with h1 | h1
        · exact absurd h1.symm hy
        · exact h1
      simp only [pyIndex, hy, if_false]
      simpa using ih hx

theorem pyIndex_min (x : String) (l : List String) (j : Nat) (hj : j < pyIndex x l) :
    l.get? j ≠ some x := by
  induction l generalizing j with
  | nil => simp [pyIndex] at hj
  | cons y ys ih =>
    by_cases hy : y = x
    · simp [pyIndex, hy] at hj
    · cases j with
      | zero =>
        simp only [List.get?]
        intro he
        exact hy (Option.some.inj he)
      | succ n =>
        have hn : n < pyIndex x ys := by
          simp only [pyIndex, hy, if_false] at hj
          omega
        simpa using ih n hn

theorem scanHeaderAux_some (rows : List (List String)) :
    ∀ (i : Nat) (h : Header), scanHeaderAux i rows = some h →
      ∃ k row, rows.get? k = some row ∧ isHeaderRow row = true ∧
        (∀ j r, j < k → rows.get? j = some r → isHeaderRow r = false) ∧
        h = headerOfRow (i + k) row := by
  induction rows with
  | nil => intro i h hscan; simp [scanHeaderAux] at hscan
  | cons row rest ih =>
    intro i h hscan
    rw [scanHeaderAux] at hscan
    by_cases hr : isHeaderRow row = true
    · refine ⟨0, row, rfl, hr, ?_, ?_⟩
      · intro j r hj _
        exact absurd hj (Nat.not_lt_zero j)
      · rw [if_pos hr] at hscan
        exact (Option.some.inj hscan).symm
    · have hr' : isHeaderRow row = false := by simpa using hr
      rw [if_neg hr] at hscan
      obtain ⟨k, row', hget, hhdr, hmin, heq⟩ := ih (i + 1) h hscan
      refine ⟨k + 1, row', by simpa using hget, hhdr, ?_, ?_⟩
      · intro j r hj hgj
        cases j with
        | zero =>
          have hrr : row = r := by simpa using hgj
          rw [← hrr]
          exact hr'
        | succ m => exact hmin m r (by omega) (by simpa using hgj)
      · rw [heq]
        congr 1
        omega

theorem scanHeaderAux_none (rows : List (List String)) :
    ∀ i : Nat, scanHeaderAux i rows = none ↔ ∀ row ∈ rows, isHeaderRow row = false := by
  induction rows with
  | nil => intro i; simp [scanHeaderAux]
  | cons row rest ih =>
    intro i
    rw [scanHeaderAux]
    by_cases hr : isHeaderRow row = true
    · rw [if_pos hr]
      constructor
      · intro hc
        exact absurd hc (by simp)
      · intro hall
        have hfalse := hall row (List.mem_cons_self row rest)
        rw [hr] at hfalse
        exact absurd hfalse (by simp)
    · rw [if_neg hr, ih (i + 1)]
      have hr' : isHeaderRow row = false := by simpa using hr
      constructor
      · intro hall r hmem
        rcases List.mem_cons.mp hmem with h1 | h1
        · rw [h1]; exact hr'
        · exact hall r h1
      · intro hall r hmem
        exact hall r (List.mem_cons_of_mem _ hmem)

theorem headerOfRow_rowNum (i : Nat) (row : List String) :
    (headerOfRow i row).headerRowNum = i + 1 := rfl

theorem rowRecord_isSome (h : Header) (n : Nat) (row : List String) :
    (rowRecord h n row).isSome = includeRow h row := by
  by_cases hinc : includeRow h row = true <;> simp [rowRecord, hinc]

theorem rowRecord_rowNumber (h : Header) (n : Nat) (row : List String) (r : Record)
    (he : rowRecord h n row = some r) : r.rowNumber = n := by
  unfold rowRecord at he
  split at he
  · exact congrArg Record.rowNumber (Option.some.inj he).symm
  · exact absurd he (by simp)

theorem recordsAux_length (h : Header) (rows : List (List String)) :
    ∀ n : Nat,
      ((List.enumFrom n rows).filterMap fun p => rowRecord h p.1 p.2).length =
        rows.countP (includeRow h) := by
  induction rows with
  | nil => intro n; rfl
  | cons row rest ih =>
    intro n
    rw [List.enumFrom, List.filterMap_cons]
    rcases hrec : rowRecord h n row with _ | r0
    · have hb : includeRow h row = false := by
        have hx := rowRecord_isSome h n row
        rw [hrec] at hx
        simpa using hx.symm
      rw [List.countP_cons]
      simp [hrec, hb, ih (n + 1)]
    · have ht : includeRow h row = true := by
        have hx := rowRecord_isSome h n row
        rw [hrec] at hx
        simpa using hx.symm
      rw [List.countP_cons]
      simp [hrec, ht, ih (n + 1)]

theorem recordsAux_mem_ge (h : Header) (rows : List (List String)) :
    ∀ (n : Nat) (r : Record),
      r ∈ ((List.enumFrom n rows).filterMap fun p => rowRecord h p.1 p.2) →
        n ≤ r.rowNumber := by
  induction rows with
  | nil => intro n r hmem; simp [List.enumFrom] at hmem
  | cons row rest ih =>
    intro n r hmem
    rw [List.enumFrom, List.filterMap_cons] at hmem
    rcases hrec : rowRecord h n row with _ | r0
    · rw [hrec] at hmem
      have := ih (n + 1) r hmem
      omega
    · rw [hrec] at hmem
      rcases List.mem_cons.mp hmem with h1 | h1
      · rw [h1]
        exact Nat.le_of_eq (rowRecord_rowNumber h n row r0 hrec).symm
      · have := ih (n + 1) r h1
        omega

theorem recordsAux_pairwise (h : Header) (rows : List (List String)) :
    ∀ n : Nat,
      ((List.enumFrom n rows).filterMap fun p => rowRecord h p.1 p.2).Pairwise
        (fun a b => a.rowNumber < b.rowNumber) := by
  induction rows with
  | nil => intro n; simp [List.enumFrom]
  | cons row rest ih =>
    intro n
    rw [List.enumFrom, List.filterMap_cons]
    rcases hrec : rowRecord h n row with _ | r0
    · exact ih (n + 1)
    · refine List.Pairwise.cons ?_ (ih (n + 1))
      intro b hb
      have hge := recordsAux_mem_ge h rest (n + 1) b hb
      have hr0 := rowRecord_rowNumber h n row r0 hrec
      omega

theorem recordsAux_mem_src (h : Header) (rows : List (List String)) :
    ∀ (n : Nat) (r : Record),
      r ∈ ((List.enumFrom n rows).filterMap fun p => rowRecord h p.1 p.2) →
        ∃ row, rows.get? (r.rowNumber - n) = some row ∧
          includeRow h row = true ∧ rowRecord h r.rowNumber row = some r := by
  induction rows with
  | nil => intro n r hmem; simp [List.enumFrom] at hmem
  | cons row rest ih =>
    intro n r hmem
    rw [List.enumFrom, List.filterMap_cons] at hmem
    rcases hrec : rowRecord h n row with _ | r0
    · rw [hrec] at hmem
      obtain ⟨row', hget, hinc, hrr⟩ := ih (n + 1) r hmem
      have hge := recordsAux_mem_ge h rest (n + 1) r hmem
      refine ⟨row', ?_, hinc, hrr⟩
      have hidx : r.rowNumber - n = (r.rowNumber - (n + 1)) + 1 := by omega
      rw [hidx]
      simpa using hget
    · rw [hrec] at hmem
      rcases List.mem_cons.mp hmem with h1 | h1
      · have hnum : r.rowNumber = n := by
          rw [h1]
          exact rowRecord_rowNumber h n row r0 hrec
        refine ⟨row, ?_, ?_, ?_⟩
        · rw [hnum]
          simp
        · have := rowRecord_isSome h n row
          rw [hrec] at this
          simpa using this.symm
        · rw [hnum, hrec, h1]
      · obtain ⟨row', hget, hinc, hrr⟩ := ih (n + 1) r h1
        have hge := recordsAux_mem_ge h rest (n + 1) r h1
        refine ⟨row', ?_, hinc, hrr⟩
        have hidx : r.rowNumber - n = (r.rowNumber - (n + 1)) + 1 := by omega
        rw [hidx]
        simpa using hget

theorem processRecord_skip (cfg : Config) (statusIdx : Nat) (ok : Bool) (r : Record)
    (hs : normStatus r = "sent") : processRecord cfg statusIdx ok r = [] := by
  simp [processRecord, hs]

theorem processRecord_attempt (cfg : Config) (statusIdx : Nat) (ok : Bool) (r : Record)
    (hs : normStatus r ≠ "sent") :
    processRecord cfg statusIdx ok r =
      [Event.send cfg.loginEmail (stripStr r.email) cfg.subject
         (render cfg.body (stripStr r.name) (stripStr r.business)),
       Event.writeCell r.rowNumber (statusIdx + 1) (if ok then "Sent" else "Failed"),
       Event.sleep] := by
  simp [processRecord, hs]

theorem sendLoop_cons (cfg : Config) (statusIdx : Nat) (oracle : Nat → Bool)
    (idx : Nat) (r : Record) (rest : List Record) :
    sendLoop cfg statusIdx oracle idx (r :: rest) =
      processRecord cfg statusIdx (oracle idx) r ++
        sendLoop cfg statusIdx oracle (idx + 1) rest := rfl

theorem sendLoop_append (cfg : Config) (statusIdx : Nat) (oracle : Nat → Bool)
    (rs1 : List Record) :
    ∀ (rs2 : List Record) (idx : Nat),
      sendLoop cfg statusIdx oracle idx (rs1 ++ rs2) =
        sendLoop cfg statusIdx oracle idx rs1 ++
          sendLoop cfg statusIdx oracle (idx + rs1.length) rs2 := by
  induction rs1 with
  | nil => intro rs2 idx; simp [sendLoop]
  | cons r rest ih =>
    intro rs2 idx
    rw [List.cons_append, sendLoop_cons, sendLoop_cons, ih rs2 (idx + 1),
      List.append_assoc, List.length_cons]
    have harith : idx + 1 + rest.length = idx + (rest.length + 1) := by omega
    rw [harith]

theorem attempted_iff (r : Record) : attempted r = true ↔ normStatus r ≠ "sent" := by
  simp [attempted]

theorem processRecord_countP_send (cfg : Config) (statusIdx : Nat) (ok : Bool) (r : Record) :
    (processRecord cfg statusIdx ok r).countP isSend = if attempted r then 1 else 0 := by
  by_cases hs : normStatus r = "sent"
  · simp [processRecord_skip cfg statusIdx ok r hs, attempted, hs]
  · simp [processRecord_attempt cfg statusIdx ok r hs, attempted, hs,
      List.countP_cons, isSend]

theorem processRecord_countP_sleep (cfg : Config) (statusIdx : Nat) (ok : Bool) (r : Record) :
    (processRecord cfg statusIdx ok r).countP isSleep = if attempted r then 1 else 0 := by
  by_cases hs : normStatus r = "sent"
  · simp [processRecord_skip cfg statusIdx ok r hs, attempted, hs]
  · simp [processRecord_attempt cfg statusIdx ok r hs, attempted, hs,
      List.countP_cons, isSleep]

theorem processRecord_countP_write (cfg : Config) (statusIdx : Nat) (ok : Bool) (r : Record) :
    (processRecord cfg statusIdx ok r).countP isWrite = if attempted r then 1 else 0 := by
  by_cases hs : normStatus r = "sent"
  · simp [processRecord_skip cfg statusIdx ok r hs, attempted, hs]
  · simp [processRecord_attempt cfg statusIdx ok r hs, attempted, hs,
      List.countP_cons, isWrite]

theorem sendLoop_countP_send (cfg : Config) (statusIdx : Nat) (oracle : Nat → Bool)
    (records : List Record) :
    ∀ idx : Nat,
      (sendLoop cfg statusIdx oracle idx records).countP isSend =
        records.countP attempted := by
  induction records with
  | nil => intro idx; rfl
  | cons r rest ih =>
    intro idx
    rw [sendLoop_cons, List.countP_append, processRecord_countP_send, ih (idx + 1),
      List.countP_cons]
    by_cases ha : attempted r = true
    · simp [ha]
      omega
    · simp [ha]

theorem sendLoop_countP_sleep (cfg : Config) (statusIdx : Nat) (oracle : Nat → Bool)
    (records : List Record) :
    ∀ idx : Nat,
      (sendLoop cfg statusIdx oracle idx records).countP isSleep =
        records.countP attempted := by
  induction records with
  | nil => intro idx; rfl
  | cons r rest ih =>
    intro idx
    rw [sendLoop_cons, List.countP_append, processRecord_countP_sleep, ih (idx + 1),
      List.countP_cons]
    by_cases ha : attempted r = true
    · simp [ha]
      omega
    · simp [ha]

theorem sendLoop_countP_write (cfg : Config) (statusIdx : Nat) (oracle : Nat → Bool)
    (records : List Record) :
    ∀ idx : Nat,
      (sendLoop cfg statusIdx oracle idx records).countP isWrite =
        records.countP attempted := by
  induction records with
  | nil => intro idx; rfl
  | cons r rest ih =>
    intro idx
    rw [sendLoop_cons, List.countP_append, processRecord_countP_write, ih (idx + 1),
      List.countP_cons]
    by_cases ha : attempted r = true
    · simp [ha]
      omega
    · simp [ha]

theorem writeRowsOf_append (es1 es2 : List Event) :
    writeRowsOf (es1 ++ es2) = writeRowsOf es1 ++ writeRowsOf es2 := by
  simp [writeRowsOf]

theorem writeRowsOf_processRecord (cfg : Config) (statusIdx : Nat) (ok : Bool) (r : Record) :
    writeRowsOf (processRecord cfg statusIdx ok r) =
      if attempted r then [r.rowNumber] else [] := by
  by_cases hs : normStatus r = "sent"
  · simp [processRecord_skip cfg statusIdx ok r hs, attempted, hs, writeRowsOf]
  · simp [processRecord_attempt cfg statusIdx ok r hs, attempted, hs, writeRowsOf]

theorem writeRowsOf_sendLoop (cfg : Config) (statusIdx : Nat) (oracle : Nat → Bool)
    (records : List Record) :
    ∀ idx : Nat,
      writeRowsOf (sendLoop cfg statusIdx oracle idx records) =
        (records.filter attempted).map Record.rowNumber := by
  induction records with
  | nil => intro idx; rfl
  | cons r rest ih =>
    intro idx
    rw [sendLoop_cons, writeRowsOf_append, writeRowsOf_processRecord, ih (idx + 1),
      List.filter_cons]
    by_cases ha : attempted r = true <;> simp [ha]

theorem replaceAux_no_occurrence (pat rep : List Char) :
    ∀ (fuel : Nat) (s : List Char), ¬ pat <:+: s → replaceAux pat rep fuel s = s := by
  intro fuel
  induction fuel with
  | zero => intro s _; cases s <;> rfl
  | succ n ih =>
    intro s hno
    cases s with
    | nil => rfl
    | cons c cs =>
      have htail : ¬ pat <:+: cs := fun hinf =>
        hno (hinf.trans (List.suffix_cons c cs).isInfix)
      have hnp : ¬ pat.isPrefixOf (c :: cs) = true := fun hpre =>
        hno (List.IsPrefix.isInfix (List.isPrefixOf_iff_prefix.mp hpre))
      rw [replaceAux, if_neg hnp, ih cs htail]

theorem pyReplace_no_occurrence (s pat rep : String) (hno : ¬ pat.data <:+: s.data) :
    pyReplace s pat rep = s := by
  unfold pyReplace
  by_cases hp : pat.data = []
  · rw [if_pos hp]
  · rw [if_neg hp, replaceAux_no_occurrence pat.data rep.data s.data.length s.data hno]

theorem includeRow_iff (h : Header) (row : List String) :
    includeRow h row = true ↔
      (max h.nameIdx h.emailIdx < row.length ∧ stripStr (row.getD h.emailIdx "") ≠ "") := by
  simp [includeRow]

/-- C1: scanning the grid top to bottom, the header row is the first row whose
normalized cells contain both `"name"` and `"email"`; from it the name and
email column indices are resolved (to positions actually holding those
labels); when no such row exists, classification fails with the
missing-required-columns outcome and the run produces no records and no
events, halting before any send. -/
theorem header_detection_spec (cfg : Config) (oracle : Nat → Bool)
    (allData : List (List String)) :
    (∀ h : Header, scanHeader allData = some h →
      ∃ k row, allData.get? k = some row ∧ h.headerRowNum = k + 1 ∧
        ("name" ∈ rowLower row ∧ "email" ∈ rowLower row) ∧
        (∀ j r, j < k → allData.get? j = some r →
          ¬ ("name" ∈ rowLower r ∧ "email" ∈ rowLower r)) ∧
        h.nameIdx = pyIndex "name" (rowLower row) ∧
        h.emailIdx = pyIndex "email" (rowLower row) ∧
        (rowLower row).get? h.nameIdx = some "name" ∧
        (rowLower row).get? h.emailIdx = some "email") ∧
    ((∀ row ∈ allData, ¬ ("name" ∈ rowLower row ∧ "email" ∈ rowLower row)) →
      run cfg oracle allData = (Outcome.missingColumns, [])) := by
  constructor
  · intro h hs
    obtain ⟨k, row, hget, hhdr, hmin, heq⟩ := scanHeaderAux_some allData 0 h hs
    have hmemName := ((isHeaderRow_iff row).mp hhdr).1
    have hmemEmail := ((isHeaderRow_iff row).mp hhdr).2
    have hrowNum : h.headerRowNum = k + 1 := by
      rw [heq, headerOfRow_rowNum]
      omega
    refine ⟨k, row, hget, hrowNum, (isHeaderRow_iff row).mp hhdr, ?_, ?_, ?_, ?_, ?_⟩
    · intro j r hj hgj hcon
      have hfalse := hmin j r hj hgj
      rw [(isHeaderRow_iff r).mpr hcon] at hfalse
      exact absurd hfalse (by simp)
    · rw [heq]
      rfl
    · rw [heq]
      rfl
    · rw [heq]
      exact pyIndex_get "name" (rowLower row) hmemName
    · rw [heq]
      exact pyIndex_get "email" (rowLower row) hmemEmail
  · intro hall
    have hnone : scanHeader allData = none := by
      rw [scanHeader, scanHeaderAux_none allData 0]
      intro row hmem
      by_cases hb : isHeaderRow row = true
      · exact absurd ((isHeaderRow_iff row).mp hb) (hall row hmem)
      · simpa using hb
    simp [run, hnone]

/-- C1 witness: on the grid `[["x"], ["Name", "Email"]]` the header scan finds
row index 1, resolving name to column 0 and email to column 1. -/
theorem header_detection_spec_witness :
    ∃ k row, [["x"], ["Name", "Email"]].get? k = some row ∧
      ({ nameIdx := 0, emailIdx := 1, statusIdx := 2, businessIdx := none,
         headerRowNum := 2 } : Header).headerRowNum = k + 1 ∧
      ("name" ∈ rowLower row ∧ "email" ∈ rowLower row) ∧
      (∀ j r, j < k → [["x"], ["Name", "Email"]].get? j = some r →
        ¬ ("name" ∈ rowLower r ∧ "email" ∈ rowLower r)) ∧
      ({ nameIdx := 0, emailIdx := 1, statusIdx := 2, businessIdx := none,
         headerRowNum := 2 } : Header).nameIdx = pyIndex "name" (rowLower row) ∧
      ({ nameIdx := 0, emailIdx := 1, statusIdx := 2, businessIdx := none,
         headerRowNum := 2 } : Header).emailIdx = pyIndex "email" (rowLower row) ∧
      (rowLower row).get? 0 = some "name" ∧
      (rowLower row).get? 1 = some "email" :=
  (header_detection_spec ⟨"me@x.com", "S", "B"⟩ (fun _ => true)
    [["x"], ["Name", "Email"]]).1
    { nameIdx := 0, emailIdx := 1, statusIdx := 2, businessIdx := none, headerRowNum := 2 }
    (by decide)

/-- C2: a row strictly after the header yields a record iff it has at least
`max(name_index, email_index) + 1` cells and a post-trim nonempty email cell;
the record count equals the count of qualifying rows, and records keep the
order of their source rows (row numbers strictly increase, and each record
points back to the source row it was built from). -/
theorem record_inclusion_spec (h : Header) (allData : List (List String)) :
    (∀ (n : Nat) (row : List String),
      (∃ r, rowRecord h n row = some r) ↔
        (max h.nameIdx h.emailIdx < row.length ∧
          stripStr (row.getD h.emailIdx "") ≠ "")) ∧
    (mkRecords h allData).length = (allData.drop h.headerRowNum).countP (includeRow h) ∧
    (mkRecords h allData).Pairwise (fun a b => a.rowNumber < b.rowNumber) ∧
    (∀ r ∈ mkRecords h allData, ∃ row, allData.get? (r.rowNumber - 1) = some row ∧
      includeRow h row = true ∧ rowRecord h r.rowNumber row = some r) := by
  refine ⟨?_, ?_, ?_, ?_⟩
  · intro n row
    constructor
    · rintro ⟨r, hr⟩
      have hx := rowRecord_isSome h n row
      rw [hr] at hx
      exact (includeRow_iff h row).mp (by simpa using hx.symm)
    · intro hcond
      have hinc : includeRow h row = true := (includeRow_iff h row).mpr hcond
      unfold rowRecord
      rw [if_pos hinc]
      exact ⟨_, rfl⟩
  · exact recordsAux_length h (allData.drop h.headerRowNum) (h.headerRowNum + 1)
  · exact recordsAux_pairwise h (allData.drop h.headerRowNum) (h.headerRowNum + 1)
  · intro r hr
    obtain ⟨row, hget, hinc, hrr⟩ :=
      recordsAux_mem_src h (allData.drop h.headerRowNum) (h.headerRowNum + 1) r hr
    have hge := recordsAux_mem_ge h (allData.drop h.headerRowNum) (h.headerRowNum + 1) r hr
    refine ⟨row, ?_, hinc, hrr⟩
    have hdrop : allData.get? (h.headerRowNum + (r.rowNumber - (h.headerRowNum + 1))) =
        some row := by
      rw [List.get?_eq_getElem?, ← List.getElem?_drop, ← List.get?_eq_getElem?]
      exact hget
    have harith : h.headerRowNum + (r.rowNumber - (h.headerRowNum + 1)) = r.rowNumber - 1 := by
      omega
    rw [harith] at hdrop
    exact hdrop

/-- C2 witness: with name and email in columns 0 and 1, the row
`["Bob", "b@x"]` (long enough, nonempty email) yields a record. -/
theorem record_inclusion_spec_witness :
    ∃ r, rowRecord ⟨0, 1, 2, none, 1⟩ 2 ["Bob", "b@x"] = some r :=
  ((record_inclusion_spec ⟨0, 1, 2, none, 1⟩ []).1 2 ["Bob", "b@x"]).mpr (by decide)

/-- C3: a record whose stored status, trimmed and lowercased, equals `"sent"`
produces no events at all (no send attempt, no write, no delay); every other
record (including `"failed"` and empty status) produces exactly one send
attempt followed by one status write and the fixed delay, and over a whole
run the numbers of send attempts and delays both equal the number of
non-skipped records. -/
theorem skip_vs_attempt_spec (cfg : Config) (statusIdx : Nat) (oracle : Nat → Bool) :
    (∀ (ok : Bool) (r : Record), normStatus r = "sent" →
      processRecord cfg statusIdx ok r = []) ∧
    (∀ (ok : Bool) (r : Record), normStatus r ≠ "sent" →
      processRecord cfg statusIdx ok r =
        [Event.send cfg.loginEmail (stripStr r.email) cfg.subject
           (render cfg.body (stripStr r.name) (stripStr r.business)),
         Event.writeCell r.rowNumber (statusIdx + 1) (if ok then "Sent" else "Failed"),
         Event.sleep]) ∧
    (∀ (records : List Record) (idx : Nat),
      (sendLoop cfg statusIdx oracle idx records).countP isSend =
        records.countP attempted ∧
      (sendLoop cfg statusIdx oracle idx records).countP isSleep =
        records.countP attempted) ∧
    (∀ r : Record, attempted r = true ↔ normStatus r ≠ "sent") := by
  refine ⟨processRecord_skip cfg statusIdx, processRecord_attempt cfg statusIdx, ?_, ?_⟩
  · intro records idx
    exact ⟨sendLoop_countP_send cfg statusIdx oracle records idx,
           sendLoop_countP_sleep cfg statusIdx oracle records idx⟩
  · exact attempted_iff

/-- C3 witness: a record stored as `" SENT "` is skipped outright, while one
stored as `"Failed"` yields the attempt-write-delay block. -/
theorem skip_vs_attempt_spec_witness :
    processRecord ⟨"me@x.com", "S", "B"⟩ 2 true ⟨"Amy", "a@x", "", " SENT ", 3⟩ = [] ∧
    processRecord ⟨"me@x.com", "S", "B"⟩ 2 true ⟨"Bob", "b@x", "", "Failed", 2⟩ =
      [Event.send "me@x.com" "b@x" "S" "B",
       Event.writeCell 2 3 "Sent", Event.sleep] :=
  ⟨(skip_vs_attempt_spec ⟨"me@x.com", "S", "B"⟩ 2 (fun _ => true)).1 true
      ⟨"Amy", "a@x", "", " SENT ", 3⟩ (by decide),
   (skip_vs_attempt_spec ⟨"me@x.com", "S", "B"⟩ 2 (fun _ => true)).2.1 true
      ⟨"Bob", "b@x", "", "Failed", 2⟩ (by decide)⟩

/-- C4: every attempted record causes exactly one status-cell write, at its
original row number in the status column (1-based), with the exact literal
`"Sent"` on transport success and `"Failed"` on transport failure, regardless
of the previously stored casing; per-record failure is non-fatal: the loop
over a cons always continues into the tail, and the number of send attempts
equals the number of non-skipped records whatever the transport outcomes. -/
theorem status_writeback_spec (cfg : Config) (statusIdx : Nat) (oracle : Nat → Bool) :
    (∀ (ok : Bool) (r : Record), normStatus r ≠ "sent" →
      (processRecord cfg statusIdx ok r).filter isWrite =
        [Event.writeCell r.rowNumber (statusIdx + 1)
          (if ok then "Sent" else "Failed")]) ∧
    (∀ (idx : Nat) (r : Record) (rest : List Record),
      sendLoop cfg statusIdx oracle idx (r :: rest) =
        processRecord cfg statusIdx (oracle idx) r ++
          sendLoop cfg statusIdx oracle (idx + 1) rest) ∧
    (∀ (records : List Record) (idx : Nat),
      (sendLoop cfg statusIdx oracle idx records).countP isSend =
        records.countP attempted ∧
      (sendLoop cfg statusIdx oracle idx records).countP isWrite =
        records.countP attempted) := by
  refine ⟨?_, sendLoop_cons cfg statusIdx oracle, ?_⟩
  · intro ok r hs
    rw [processRecord_attempt cfg statusIdx ok r hs]
    simp [List.filter, isWrite]
  · intro records idx
    exact ⟨sendLoop_countP_send cfg statusIdx oracle records idx,
           sendLoop_countP_write cfg statusIdx oracle records idx⟩

/-- C4 witness: a record whose stored status is `"FAILED"` is attempted, and
on transport failure its single write carries the exact literal `"Failed"`. -/
theorem status_writeback_spec_witness :
    (processRecord ⟨"me@x.com", "S", "B"⟩ 2 false
        ⟨"Bob", "b@x", "", "FAILED", 2⟩).filter isWrite =
      [Event.writeCell 2 3 "Failed"] :=
  (status_writeback_spec ⟨"me@x.com", "S", "B"⟩ 2 (fun _ => false)).1 false
    ⟨"Bob", "b@x", "", "FAILED", 2⟩ (by decide)

/-- C5: rendering substitutes the literal tokens into the template
(`"Hi {name}, re {business}"` with `"Ana"`/`"Acme"` gives exactly
`"Hi Ana, re Acme"`); a template containing neither token is returned
unchanged; an absent business column makes the record's business field empty,
so `{business}` is replaced by the empty string (`"Hi Ana, re "`). -/
theorem template_rendering_spec (t n b : String) :
    render "Hi {name}, re {business}" "Ana" "Acme" = "Hi Ana, re Acme" ∧
    render "Hi {name}, re {business}" "Ana" "" = "Hi Ana, re " ∧
    (¬ "{name}".data <:+: t.data → ¬ "{business}".data <:+: t.data →
      render t n b = t) ∧
    (∀ (h : Header) (num : Nat) (row : List String) (r : Record),
      h.businessIdx = none → rowRecord h num row = some r → r.business = "") := by
  refine ⟨by decide, by decide, ?_, ?_⟩
  · intro hn hb
    unfold render
    rw [pyReplace_no_occurrence t "{name}" n hn]
    exact pyReplace_no_occurrence t "{business}" b hb
  · intro h num row r hbiz hrec
    unfold rowRecord at hrec
    by_cases hinc : includeRow h row = true
    · rw [if_pos hinc] at hrec
      have hinj := Option.some.inj hrec
      subst hinj
      simp [hbiz]
    · rw [if_neg hinc] at hrec
      exact absurd hrec (by simp)

/-- C5 witness: a template with no placeholder tokens renders to itself. -/
theorem template_rendering_spec_witness :
    render "no placeholders here" "Ana" "Acme" = "no placeholders here" :=
  (template_rendering_spec "no placeholders here" "Ana" "Acme").2.2.1
    (by decide) (by decide)

theorem normStatus_empty (r : Record) (hst : r.status = "") : normStatus r ≠ "sent" := by
  unfold normStatus
  rw [hst]
  decide

/-- C6 counterexample: with header row `["name", "email"]` (no status label)
the sentinel status index is 2, yet the data row `["Bob", "b@x", "sent"]` is
longer than the header row, so its record's status field reads the actual
cell `"sent"` — not the empty string — and the record is skipped as already
sent, refuting the claim that the sentinel position is never satisfied by row
data. -/
theorem status_sentinel_cex :
    scanHeader [["name", "email"], ["Bob", "b@x", "sent"]] =
      some { nameIdx := 0, emailIdx := 1, statusIdx := 2, businessIdx := none,
             headerRowNum := 1 } ∧
    (mkRecords { nameIdx := 0, emailIdx := 1, statusIdx := 2, businessIdx := none,
                 headerRowNum := 1 }
        [["name", "email"], ["Bob", "b@x", "sent"]]).map Record.status = ["sent"] ∧
    sendLoop ⟨"me@x.com", "S", "B"⟩ 2 (fun _ => true) 0
        (mkRecords { nameIdx := 0, emailIdx := 1, statusIdx := 2, businessIdx := none,
                     headerRowNum := 1 }
          [["name", "email"], ["Bob", "b@x", "sent"]]) = [] := by
  decide

/-- C6 (amended): when the header row has no `"status"` label the status
index is set to the header row's length (one past its last column), and every
record built from a data row no longer than the header row reads status as
the empty string, hence is never skipped as already sent; a data row longer
than the header row instead reads its actual cell at that position. -/
theorem status_sentinel_spec (allData : List (List String)) (h : Header)
    (hs : scanHeader allData = some h) (hrow : List String)
    (hget : allData.get? (h.headerRowNum - 1) = some hrow)
    (hns : "status" ∉ rowLower hrow) :
    h.statusIdx = hrow.length ∧
    (∀ (n : Nat) (row : List String) (r : Record),
      rowRecord h n row = some r → row.length ≤ hrow.length →
        r.status = "" ∧ normStatus r ≠ "sent") := by
  obtain ⟨k, row0, hget0, hhdr, hmin, heq⟩ := scanHeaderAux_some allData 0 h hs
  have hrn : h.headerRowNum - 1 = k := by
    rw [heq, headerOfRow_rowNum]
    omega
  have hrow0 : hrow = row0 := by
    rw [hrn] at hget
    have h2 : some row0 = some hrow := by rw [← hget0, ← hget]
    exact (Option.some.inj h2).symm
  subst hrow0
  have hfirst : h.statusIdx = hrow.length := by
    rw [heq]
    simp [headerOfRow, hns]
  refine ⟨hfirst, ?_⟩
  intro n row r hrec hlen
  unfold rowRecord at hrec
  by_cases hinc : includeRow h row = true
  · rw [if_pos hinc] at hrec
    have hinj := Option.some.inj hrec
    have hstat : r.status =
        (if h.statusIdx < row.length then row.getD h.statusIdx "" else "") := by
      rw [← hinj]
    have hnot : ¬ h.statusIdx < row.length := by
      rw [hfirst]
      omega
    rw [if_neg hnot] at hstat
    exact ⟨hstat, normStatus_empty r hstat⟩
  · rw [if_neg hinc] at hrec
    exact absurd hrec (by simp)

/-- C6 witness: header `["name", "email"]` with the short data row
`["Bob", "b@x"]` gives a record whose status reads empty and which is not
skipped. -/
theorem status_sentinel_spec_witness :
    (⟨"Bob", "b@x", "", "", 2⟩ : Record).status = "" ∧
    normStatus ⟨"Bob", "b@x", "", "", 2⟩ ≠ "sent" :=
  (status_sentinel_spec [["name", "email"], ["Bob", "b@x"]]
      ⟨0, 1, 2, none, 1⟩ (by decide) ["name", "email"] (by decide) (by decide)).2
    2 ["Bob", "b@x"] ⟨"Bob", "b@x", "", "", 2⟩ (by decide) (by decide)

/-- C7: records are processed strictly in source order — the trace of a
concatenation is the concatenation of the traces, each record's block is
either empty (skip) or exactly send-then-write-then-delay so the status write
happens synchronously right after the send attempt, and the write events'
target rows are exactly the attempted records' row numbers in order; hence
the sheet state during the run always reflects a prefix of the record
sequence and never a later record's write before an earlier one finished. -/
theorem ordering_spec (cfg : Config) (statusIdx : Nat) (oracle : Nat → Bool) :
    (∀ (idx : Nat) (rs1 rs2 : List Record),
      sendLoop cfg statusIdx oracle idx (rs1 ++ rs2) =
        sendLoop cfg statusIdx oracle idx rs1 ++
          sendLoop cfg statusIdx oracle (idx + rs1.length) rs2) ∧
    (∀ (ok : Bool) (r : Record),
      processRecord cfg statusIdx ok r = [] ∨
      processRecord cfg statusIdx ok r =
        [Event.send cfg.loginEmail (stripStr r.email) cfg.subject
           (render cfg.body (stripStr r.name) (stripStr r.business)),
         Event.writeCell r.rowNumber (statusIdx + 1)
           (if ok then "Sent" else "Failed"),
         Event.sleep]) ∧
    (∀ (records : List Record) (idx : Nat),
      writeRowsOf (sendLoop cfg statusIdx oracle idx records) =
        (records.filter attempted).map Record.rowNumber) := by
  refine ⟨?_, ?_, ?_⟩
  · intro idx rs1 rs2
    exact sendLoop_append cfg statusIdx oracle rs1 rs2 idx
  · intro ok r
    by_cases hsent : normStatus r = "sent"
    · exact Or.inl (processRecord_skip cfg statusIdx ok r hsent)
    · exact Or.inr (processRecord_attempt cfg statusIdx ok r hsent)
  · intro records idx
    exact writeRowsOf_sendLoop cfg statusIdx oracle records idx

/-- C8: when classification yields an empty record sequence the run signals
the no-contacts outcome — distinct from the missing-columns failure — with an
empty trace: no SMTP connection is opened and no message is sent. -/
theorem empty_result_spec (cfg : Config) (oracle : Nat → Bool)
    (allData : List (List String)) (h : Header)
    (hs : scanHeader allData = some h) (hempty : mkRecords h allData = []) :
    run cfg oracle allData = (Outcome.noContacts, []) ∧
    Outcome.noContacts ≠ Outcome.missingColumns ∧
    Event.smtpConnect ∉ (run cfg oracle allData).2 ∧
    (run cfg oracle allData).2.countP isSend = 0 := by
  have hrun : run cfg oracle allData = (Outcome.noContacts, []) := by
    simp [run, hs, hempty]
  refine ⟨hrun, by simp, ?_, ?_⟩
  · rw [hrun]
    simp
  · rw [hrun]
    rfl

/-- C8 witness: a grid with a header row and no data rows halts with the
no-contacts outcome and an empty trace. -/
theorem empty_result_spec_witness :
    run ⟨"me@x.com", "S", "B"⟩ (fun _ => true) [["name", "email"]] =
      (Outcome.noContacts, []) :=
  (empty_result_spec ⟨"me@x.com", "S", "B"⟩ (fun _ => true) [["name", "email"]]
      ⟨0, 1, 2, none, 1⟩ (by decide) (by decide)).1

/-- C9: a data row whose name cell is empty or whitespace-only is still
included as a record (the inclusion test only checks row length and the
email cell) and, when its status is not `"sent"`, is still attempted, with
the `{name}` token rendered from the empty string. -/
theorem empty_name_spec (h : Header) (n : Nat) (row : List String)
    (hlen : max h.nameIdx h.emailIdx < row.length)
    (hemail : stripStr (row.getD h.emailIdx "") ≠ "") :
    ∃ r, rowRecord h n row = some r ∧ r.name = row.getD h.nameIdx "" ∧
      (∀ (cfg : Config) (statusIdx : Nat) (ok : Bool),
        stripStr r.name = "" → normStatus r ≠ "sent" →
        processRecord cfg statusIdx ok r =
          [Event.send cfg.loginEmail (stripStr r.email) cfg.subject
             (render cfg.body "" (stripStr r.business)),
           Event.writeCell r.rowNumber (statusIdx + 1)
             (if ok then "Sent" else "Failed"),
           Event.sleep]) := by
  have hinc : includeRow h row = true := (includeRow_iff h row).mpr ⟨hlen, hemail⟩
  unfold rowRecord
  rw [if_pos hinc]
  refine ⟨_, rfl, rfl, ?_⟩
  intro cfg statusIdx ok hname hsent
  rw [processRecord_attempt cfg statusIdx ok _ hsent, hname]

/-- C9 witness: the row `["   ", "b@x"]` with a whitespace-only name cell is
still projected into a record. -/
theorem empty_name_spec_witness :
    ∃ r, rowRecord ⟨0, 1, 2, none, 1⟩ 2 ["   ", "b@x"] = some r ∧
      r.name = "   " := by
  obtain ⟨r, hr, hname, _⟩ :=
    empty_name_spec ⟨0, 1, 2, none, 1⟩ 2 ["   ", "b@x"] (by decide) (by decide)
  exact ⟨r, hr, hname⟩

/-- C10: every resolved column index points at the leftmost matching label in
the detected header row: the cell at the index normalizes to the label and no
earlier cell does — for name, email, status (when present), and business
(when present). -/
theorem duplicate_headers_spec (allData : List (List String)) (h : Header)
    (hs : scanHeader allData = some h) :
    ∃ hrow, allData.get? (h.headerRowNum - 1) = some hrow ∧
      ((rowLower hrow).get? h.nameIdx = some "name" ∧
        ∀ j, j < h.nameIdx → (rowLower hrow).get? j ≠ some "name") ∧
      ((rowLower hrow).get? h.emailIdx = some "email" ∧
        ∀ j, j < h.emailIdx → (rowLower hrow).get? j ≠ some "email") ∧
      ("status" ∈ rowLower hrow →
        (rowLower hrow).get? h.statusIdx = some "status" ∧
        ∀ j, j < h.statusIdx → (rowLower hrow).get? j ≠ some "status") ∧
      (∀ b, h.businessIdx = some b →
        (rowLower hrow).get? b = some "business name" ∧
        ∀ j, j < b → (rowLower hrow).get? j ≠ some "business name") := by
  obtain ⟨k, row, hget, hhdr, hmin, heq⟩ := scanHeaderAux_some allData 0 h hs
  subst heq
  have hrn : (headerOfRow (0 + k) row).headerRowNum - 1 = k := by
    rw [headerOfRow_rowNum]
    omega
  refine ⟨row, by rw [hrn]; exact hget, ⟨?_, ?_⟩, ⟨?_, ?_⟩, ?_, ?_⟩
  · exact pyIndex_get "name" (rowLower row) ((isHeaderRow_iff row).mp hhdr).1
  · intro j hj
    exact pyIndex_min "name" (rowLower row) j hj
  · exact pyIndex_get "email" (rowLower row) ((isHeaderRow_iff row).mp hhdr).2
  · intro j hj
    exact pyIndex_min "email" (rowLower row) j hj
  · intro hmemS
    have hEq : (headerOfRow (0 + k) row).statusIdx = pyIndex "status" (rowLower row) := by
      simp [headerOfRow, hmemS]
    constructor
    · rw [hEq]
      exact pyIndex_get "status" (rowLower row) hmemS
    · intro j hj
      rw [hEq] at hj
      exact pyIndex_min "status" (rowLower row) j hj
  · intro b hbEq
    have hmemB : "business name" ∈ rowLower row := by
      by_cases hm : "business name" ∈ rowLower row
      · exact hm
      · exfalso
        have hnone : (headerOfRow (0 + k) row).businessIdx = none := by
          simp [headerOfRow, hm]
        rw [hbEq] at hnone
        exact absurd hnone (by simp)
    have hbVal : b = pyIndex "business name" (rowLower row) := by
      have hsome : (headerOfRow (0 + k) row).businessIdx =
          some (pyIndex "business name" (rowLower row)) := by
        simp [headerOfRow, hmemB]
      rw [hbEq] at hsome
      exact Option.some.inj hsome
    subst hbVal
    exact ⟨pyIndex_get "business name" (rowLower row) hmemB,
      fun j hj => pyIndex_min "business name" (rowLower row) j hj⟩

/-- C10 witness: in the header `["Name", "name", "Email"]` the duplicated
name label resolves to the leftmost column 0. -/
theorem duplicate_headers_spec_witness :
    ∃ hrow, [["Name", "name", "Email"]].get? 0 = some hrow ∧
      (rowLower hrow).get? 0 = some "name" ∧
      (∀ j, j < 0 → (rowLower hrow).get? j ≠ some "name") := by
  obtain ⟨hrow, hget, hname, _⟩ :=
    duplicate_headers_spec [["Name", "name", "Email"]] ⟨0, 2, 3, none, 1⟩ (by decide)
  exact ⟨hrow, hget, hname.1, hname.2⟩
